import Mathlib

/-!
# NodeNomad core — shallow embedding and verification

A shallow embedding of the NodeNomad distributed key-value store's core
components (Raft consensus engine, WAL storage engine, migration engine,
shard manager, consistent hash ring), translated from the TypeScript
source, together with theorems settling the specification claims.

Conventions: JavaScript numbers used as array indices or terms are
modelled as `Int` (they can be negative, e.g. `prevLogIndex = -1` or
`log.length - 1` on an empty array); logs and maps are Lean lists.
`jsSlice`/`jsIndex` reproduce JavaScript `Array.prototype.slice(0, e)`
and `arr[i]` semantics for possibly-negative arguments.
-/

/-- JavaScript `arr.slice(0, e)`: a negative end counts from the end of
the array, clamped at 0. -/
def jsSlice {α : Type} (l : List α) (e : Int) : List α :=
  if e < 0 then l.take (l.length - (-e).toNat) else l.take e.toNat

/-- JavaScript `arr[i]` for an integer index: `none` when out of range
or negative. -/
def jsIndex {α : Type} (l : List α) (i : Int) : Option α :=
  if 0 ≤ i then l.get? i.toNat else none

/-- Command tag: `set`, `delete`, or any of the other command types
(`migrate_shard`, `update_membership`, `heartbeat`), which the storage
apply path skips uniformly. -/
inductive CmdType
  | cset
  | cdelete
  | cother
  deriving DecidableEq

/-- A replicated command (`types/index.ts` `Command`). The optional
`ttl` field is carried by `set` commands built in the cluster manager. -/
structure Command where
  ctype : CmdType
  key : String
  value : String
  ttl : Option Int
  deriving DecidableEq

/-- A Raft log entry (`types/index.ts` `LogEntry`). -/
structure LogEntry where
  term : Int
  index : Int
  command : Command
  timestamp : Int
  deriving DecidableEq

/-- Node status as used by the Raft engine. -/
inductive NodeStatus
  | follower
  | candidate
  | leader
  deriving DecidableEq

/-- The mutable state of `RaftEngine` (`part_002`): current term, vote,
log, commit/apply cursors, status, leader id, the simulated vote
counter, and the per-peer index maps. -/
structure RaftNode where
  nodeId : String
  currentTerm : Int
  votedFor : Option String
  log : List LogEntry
  commitIndex : Int
  lastApplied : Int
  status : NodeStatus
  leaderId : Option String
  votesReceived : Int
  nextIndex : List (String × Int)
  matchIndex : List (String × Int)
  deriving DecidableEq

/-- Source `AppendEntriesRequest` from `types/index.ts`. -/
structure AppendEntriesRequest where
  term : Int
  leaderId : String
  prevLogIndex : Int
  prevLogTerm : Int
  entries : List LogEntry
  leaderCommit : Int
  deriving DecidableEq

/-- Source `AppendEntriesResponse` from `types/index.ts`. -/
structure AppendEntriesResponse where
  term : Int
  success : Bool
  lastLogIndex : Int
  deriving DecidableEq

/-- Source `VoteRequest` from `types/index.ts`. -/
structure VoteRequest where
  term : Int
  candidateId : String
  lastLogIndex : Int
  lastLogTerm : Int
  deriving DecidableEq

/-- Source `VoteResponse` from `types/index.ts`. -/
structure VoteResponse where
  term : Int
  voteGranted : Bool
  deriving DecidableEq

/-- The engine's construction state: follower, term 0, empty log
(`RaftEngine` constructor). -/
def RaftNode.init (id : String) : RaftNode where
  nodeId := id
  currentTerm := 0
  votedFor := none
  log := []
  commitIndex := 0
  lastApplied := 0
  status := NodeStatus.follower
  leaderId := none
  votesReceived := 0
  nextIndex := []
  matchIndex := []

/-- Source `RaftEngine.updateTerm`: adopt a new term and clear the vote. -/
def updateTerm (st : RaftNode) (newTerm : Int) : RaftNode :=
  { st with currentTerm := newTerm, votedFor := none }

/-- Source `RaftEngine.becomeFollower`: drop to follower and record the leader. -/
def becomeFollower (st : RaftNode) (leader : Option String) : RaftNode :=
  { st with status := NodeStatus.follower, leaderId := leader }

/-- Source `RaftEngine.becomeLeader`: switch to leader, point `leaderId` at
self, and clear the per-peer index maps. -/
def becomeLeader (st : RaftNode) : RaftNode :=
  { st with status := NodeStatus.leader, leaderId := some st.nodeId,
            nextIndex := [], matchIndex := [] }

/-- Source `RaftEngine.startElection` (fired by the election timer): unless
already leader, increment the term, become candidate, vote for self and
set the simulated vote counter to 1. -/
def startElection (st : RaftNode) : RaftNode :=
  if st.status = NodeStatus.leader then st
  else
    { st with currentTerm := st.currentTerm + 1,
              status := NodeStatus.candidate,
              votedFor := some st.nodeId,
              votesReceived := 1 }

/-- The timeout scheduled by `RaftEngine.requestVotes`: no RPC is sent;
after 100 ms the node simply becomes leader if it is still a candidate. -/
def requestVotesTimeout (st : RaftNode) : RaftNode :=
  if st.status = NodeStatus.candidate then becomeLeader st else st

/-- Source `RaftEngine.getLastLogEntry`. -/
def getLastLogEntry (st : RaftNode) : Option LogEntry :=
  st.log.getLast?

/-- Source `RaftEngine.appendCommand`: throws unless leader; otherwise appends
`(currentTerm, log.length, command, now)` and returns the entry. -/
def appendCommand (st : RaftNode) (cmd : Command) (now : Int) :
    Except String (LogEntry × RaftNode) :=
  if st.status = NodeStatus.leader then
    let entry : LogEntry :=
      { term := st.currentTerm, index := (st.log.length : Int),
        command := cmd, timestamp := now }
    Except.ok (entry, { st with log := st.log ++ [entry] })
  else
    Except.error "Only leader can append commands"

/-- The state after an `appendCommand` call (the thrown error leaves the
state unchanged). -/
def appendStep (st : RaftNode) (cmd : Command) (now : Int) : RaftNode :=
  match appendCommand st cmd now with
  | Except.ok p => p.2
  | Except.error _ => st

/-- The entries emitted by the `applyCommittedEntries` while-loop,
starting one past `la`, running for `fuel` iterations: each iteration
increments the cursor and emits `log[cursor]` when present. -/
def applyFuel (log : List LogEntry) : Nat → Int → List LogEntry
  | 0, _ => []
  | n + 1, la =>
    (match jsIndex log (la + 1) with
     | some e => [e]
     | none => []) ++ applyFuel log n (la + 1)

/-- Source `RaftEngine.applyCommittedEntries`: while `lastApplied <
commitIndex`, advance `lastApplied` and deliver `log[lastApplied]` to
the commit callback. Returns the new state and the delivered entries in
emission order. -/
def applyCommittedEntries (st : RaftNode) : RaftNode × List LogEntry :=
  let fuel := (st.commitIndex - st.lastApplied).toNat
  ({ st with lastApplied := st.lastApplied + fuel },
   applyFuel st.log fuel st.lastApplied)

/-- Source `RaftEngine.handleAppendEntries`, returning the new state, the
response, and the entries delivered to storage by the apply loop. -/
def handleAppendEntries (st : RaftNode) (req : AppendEntriesRequest) :
    RaftNode × AppendEntriesResponse × List LogEntry :=
  let st1 := if st.currentTerm < req.term
             then becomeFollower (updateTerm st req.term) (some req.leaderId)
             else st
  if req.term < st1.currentTerm then
    (st1, { term := st1.currentTerm, success := false,
            lastLogIndex := (st1.log.length : Int) - 1 }, [])
  else
    let st2 := if st1.status = NodeStatus.follower
               then { st1 with leaderId := some req.leaderId }
               else st1
    let okPrev : Bool :=
      if 0 ≤ req.prevLogIndex then
        match jsIndex st2.log req.prevLogIndex with
        | some prevEntry => prevEntry.term = req.prevLogTerm
        | none => false
      else true
    if okPrev then
      let st3 := if 0 < req.entries.length
                 then { st2 with
                        log := jsSlice st2.log (req.prevLogIndex + 1) ++ req.entries }
                 else st2
      let stepApply :=
        if st3.commitIndex < req.leaderCommit then
          applyCommittedEntries
            { st3 with
              commitIndex := min req.leaderCommit ((st3.log.length : Int) - 1) }
        else (st3, [])
      (stepApply.1,
       { term := stepApply.1.currentTerm, success := true,
         lastLogIndex := (stepApply.1.log.length : Int) - 1 },
       stepApply.2)
    else
      (st2, { term := st2.currentTerm, success := false,
              lastLogIndex := (st2.log.length : Int) - 1 }, [])

/-- Source `RaftEngine.isCandidateUpToDate`. -/
def isCandidateUpToDate (st : RaftNode) (cLastIndex cLastTerm : Int) : Bool :=
  match getLastLogEntry st with
  | none => true
  | some last =>
    if last.term < cLastTerm then true
    else if cLastTerm = last.term ∧ last.index ≤ cLastIndex then true
    else false

/-- Source `RaftEngine.handleRequestVote`. -/
def handleRequestVote (st : RaftNode) (req : VoteRequest) :
    RaftNode × VoteResponse :=
  let st1 := if st.currentTerm < req.term
             then becomeFollower (updateTerm st req.term) none
             else st
  let canVote := st1.votedFor = none ∨ st1.votedFor = some req.candidateId
  let upToDate := isCandidateUpToDate st1 req.lastLogIndex req.lastLogTerm
  if req.term < st1.currentTerm ∨ ¬ canVote ∨ upToDate = false then
    (st1, { term := st1.currentTerm, voteGranted := false })
  else
    ({ st1 with votedFor := some req.candidateId },
     { term := st1.currentTerm, voteGranted := true })

/-- C1: a candidate transitions to leader only after affirmative votes
from a strict majority of the configured peer set. In the source,
`requestVotes` sends no RPC at all: 100 ms after candidacy the node
becomes leader whenever it is still a candidate, holding only its own
vote. Starting from the initial state of a node in a 3-node cluster, one
election-timer expiry followed by the simulated timeout yields status
`leader` with `votesReceived = 1`, which is not a strict majority of 3.
This contradicts the claim (and the spec's own design note calls the
simulated election a correctness defect), so the claim is recorded as a
code bug, evidenced here by evaluating the code at the failing input. -/
theorem simulated_election_ignores_majority :
    (requestVotesTimeout (startElection (RaftNode.init "node-1"))).status
        = NodeStatus.leader
    ∧ (requestVotesTimeout (startElection (RaftNode.init "node-1"))).votesReceived = 1
    ∧ ¬ (3 < 2 * (requestVotesTimeout (startElection (RaftNode.init "node-1"))).votesReceived) := by
  decide

/-- C4: `appendCommand` fails with the not-leader error exactly when the
node is not leader; when the node is leader it appends exactly one entry
`(term := currentTerm, index := log.length, command, timestamp := now)`
to the local log and returns that entry. -/
theorem appendCommand_spec (st : RaftNode) (cmd : Command) (now : Int) :
    (st.status ≠ NodeStatus.leader →
      appendCommand st cmd now = Except.error "Only leader can append commands")
    ∧ (st.status = NodeStatus.leader →
      appendCommand st cmd now =
        Except.ok
          ({ term := st.currentTerm, index := (st.log.length : Int),
             command := cmd, timestamp := now },
           { st with
             log := st.log ++
               [{ term := st.currentTerm, index := (st.log.length : Int),
                  command := cmd, timestamp := now }] })) := by
  constructor
  · intro h
    simp [appendCommand, h]
  · intro h
    simp [appendCommand, h]

/-- A concrete leader node used to witness the claims about leader-side
operations. -/
def demoLeader : RaftNode :=
  { RaftNode.init "node-1" with status := NodeStatus.leader, currentTerm := 2 }

/-- A concrete `set` command. -/
def demoSetCmd : Command :=
  { ctype := CmdType.cset, key := "k", value := "v", ttl := none }

/-- Witness for C4: on the concrete leader node, `appendCommand`
returns precisely the predicted entry and appends it to the log. -/
theorem appendCommand_spec_witness :
    appendCommand demoLeader demoSetCmd 5 =
      Except.ok
        ({ term := demoLeader.currentTerm, index := (demoLeader.log.length : Int),
           command := demoSetCmd, timestamp := 5 },
         { demoLeader with
           log := demoLeader.log ++
             [{ term := demoLeader.currentTerm, index := (demoLeader.log.length : Int),
                command := demoSetCmd, timestamp := 5 }] }) :=
  (appendCommand_spec demoLeader demoSetCmd 5).2 rfl

/-! ## Storage engine (`storage-engine.ts`) -/

/-- An in-memory storage record (`StorageEntry`). -/
structure StorageEntry where
  key : String
  value : String
  timestamp : Int
  ttl : Option Int
  deriving DecidableEq

/-- The in-memory map, as a JavaScript `Map`: an insertion-ordered
association list with unique keys. -/
abbrev StorageState : Type := List (String × StorageEntry)

/-- JavaScript `Map.set`: overwrite in place when the key exists,
otherwise append. -/
def mapSet (m : StorageState) (k : String) (v : StorageEntry) : StorageState :=
  if m.any (fun p => p.1 = k) then
    m.map (fun p => if p.1 = k then (k, v) else p)
  else
    m ++ [(k, v)]

/-- JavaScript `Map.delete`: remove the entry with the given key. -/
def mapDelete (m : StorageState) (k : String) : StorageState :=
  m.eraseP (fun p => decide (p.1 = k))

/-- Source `NodeNomadStorageEngine.applyLogEntry`: a `set` with a truthy key
stores `(key, value, entry.timestamp)` — note the record carries no
`ttl` — a `delete` with a truthy key removes it, and every other
command type is skipped with a warning. JavaScript truthiness makes the
empty-string key falsy, hence the `key ≠ ""` guards. -/
def storageApplyLogEntry (m : StorageState) (e : LogEntry) : StorageState :=
  match e.command.ctype with
  | CmdType.cset =>
    if e.command.key ≠ "" then
      mapSet m e.command.key
        { key := e.command.key, value := e.command.value,
          timestamp := e.timestamp, ttl := none }
    else m
  | CmdType.cdelete =>
    if e.command.key ≠ "" then mapDelete m e.command.key else m
  | CmdType.cother => m

/-- Source `NodeNomadStorageEngine.appendToWAL`: append one serialized entry
to the end of the WAL. -/
def appendToWAL (wal : List LogEntry) (e : LogEntry) : List LogEntry :=
  wal ++ [e]

/-- Source `NodeNomadStorageEngine.replayWAL`: apply every WAL entry in file
order to the in-memory map. -/
def replayWAL (wal : List LogEntry) : StorageState :=
  wal.foldl storageApplyLogEntry []

/-- First pass of the round-trip law: starting from an empty map and an
empty WAL, append each entry to the WAL and apply it to the map. -/
def applyAndLogAll (es : List LogEntry) : StorageState × List LogEntry :=
  es.foldl
    (fun acc e => (storageApplyLogEntry acc.1 e, appendToWAL acc.2 e))
    ([], [])

/-- Source `NodeNomadStorageEngine.truncateWAL`: when `fromIndex` is within
range, keep only `lines.slice(0, fromIndex)` — the entries BEFORE the
index — and rewrite the file; otherwise leave the WAL unchanged. -/
def truncateWAL (wal : List LogEntry) (fromIndex : Nat) : List LogEntry :=
  if wal.length ≤ fromIndex then wal else wal.take fromIndex

/-- Two distinguishable WAL entries for the `truncateWAL` counterexample. -/
def demoEntryA : LogEntry :=
  { term := 1, index := 0,
    command := { ctype := CmdType.cset, key := "a", value := "1", ttl := none },
    timestamp := 10 }

/-- Second demo WAL entry. -/
def demoEntryB : LogEntry :=
  { term := 1, index := 1,
    command := { ctype := CmdType.cset, key := "b", value := "2", ttl := none },
    timestamp := 11 }

/-- C5 counterexample: the claim predicts `truncateWAL(i)` removes the
entries at positions before `i` and keeps those at `i` and after, i.e.
returns `wal.drop i`. On the two-entry WAL `[A, B]` with `i = 1` the
code instead returns `[A]` (it keeps the prefix), not `[B]`. -/
theorem truncateWAL_counterexample :
    truncateWAL [demoEntryA, demoEntryB] 1 ≠ List.drop 1 [demoEntryA, demoEntryB] := by
  decide

/-- C5 amended: `truncateWAL(i)` removes exactly the entries at
positions `i` and after, keeping the prefix before `i` unchanged in
order (when `i` is at least the length, nothing is removed) — in other
words it returns `wal.take i`, not `wal.drop i`. -/
theorem truncateWAL_eq_take (wal : List LogEntry) (fromIndex : Nat) :
    truncateWAL wal fromIndex = wal.take fromIndex := by
  unfold truncateWAL
  split
  · next h => exact (List.take_of_length_le h).symm
  · rfl

/-- Replaying an extended WAL is one more application step
(`foldl` over an appended singleton). Shared helper for the round-trip
law. -/
theorem replayWAL_append (wal : List LogEntry) (e : LogEntry) :
    replayWAL (appendToWAL wal e) = storageApplyLogEntry (replayWAL wal) e := by
  unfold replayWAL appendToWAL
  rw [List.foldl_append]
  rfl

/-- Generalized invariant of the first pass: whenever the running map
equals the replay of the running WAL, this remains true after folding
any further entries. Shared helper for the round-trip law. -/
theorem applyAndLog_invariant (es : List LogEntry) :
    ∀ (m : StorageState) (wal : List LogEntry), m = replayWAL wal →
      (es.foldl (fun acc e => (storageApplyLogEntry acc.1 e, appendToWAL acc.2 e)) (m, wal)).1
        = replayWAL
            ((es.foldl (fun acc e => (storageApplyLogEntry acc.1 e, appendToWAL acc.2 e)) (m, wal)).2) := by
  induction es with
  | nil =>
    intro m wal h
    simpa using h
  | cons e rest ih =>
    intro m wal h
    simp only [List.foldl_cons]
    exact ih _ _ (by rw [replayWAL_append, h])

/-- C6: for every finite sequence of `Set`/`Delete` log entries,
appending each entry to the WAL and applying it to the in-memory map,
then replaying the accumulated WAL from an empty map, yields an
identical key/value state — including the TTL field of every stored
record (the apply path stores no TTL, identically on both passes). -/
theorem wal_replay_roundtrip (es : List LogEntry)
    (h : ∀ e ∈ es, e.command.ctype = CmdType.cset ∨ e.command.ctype = CmdType.cdelete) :
    replayWAL (applyAndLogAll es).2 = (applyAndLogAll es).1 := by
  have hinv := applyAndLog_invariant es [] [] rfl
  unfold applyAndLogAll
  exact hinv.symm

/-- A delete entry for the round-trip witness. -/
def demoEntryDel : LogEntry :=
  { term := 1, index := 2,
    command := { ctype := CmdType.cdelete, key := "a", value := "", ttl := none },
    timestamp := 12 }

/-- Witness for C6: the round-trip law evaluated on the concrete WAL
`[set a, set b, delete a]`. -/
theorem wal_replay_roundtrip_witness :
    replayWAL (applyAndLogAll [demoEntryA, demoEntryB, demoEntryDel]).2
      = (applyAndLogAll [demoEntryA, demoEntryB, demoEntryDel]).1 :=
  wal_replay_roundtrip [demoEntryA, demoEntryB, demoEntryDel] (by decide)

/-! ## Migration engine (`migration-engine.ts`) -/

/-- The migration status state machine (`MigrationStatus`). -/
inductive MigStatus
  | pending
  | preparing
  | transferring
  | verifying
  | updatingRouting
  | cleaningUp
  | completed
  | failed
  | cancelled
  deriving DecidableEq

/-- Source `MigrationOperation` from `migration-engine.ts`. -/
structure MigrationOperation where
  id : String
  shardId : String
  sourceNodeId : String
  targetNodeId : String
  status : MigStatus
  progress : Int
  startTime : Int
  endTime : Option Int
  dataTransferred : Int
  totalDataSize : Int
  error : Option String
  deriving DecidableEq

/-- Source `MigrationConfig` from `migration-engine.ts`. -/
structure MigrationConfig where
  maxConcurrentMigrations : Int
  chunkSize : Int
  retryAttempts : Int
  timeoutMs : Int
  deriving DecidableEq

/-- JavaScript `v || d` on an optional number: `0` is falsy, so both a
missing field and `0` select the default. -/
def jsOrDefault (v : Option Int) (d : Int) : Int :=
  match v with
  | none => d
  | some x => if x = 0 then d else x

/-- The `MigrationEngine` constructor's config defaulting. -/
def mkMigrationConfig (m c r t : Option Int) : MigrationConfig where
  maxConcurrentMigrations := jsOrDefault m 3
  chunkSize := jsOrDefault c (1024 * 1024)
  retryAttempts := jsOrDefault r 3
  timeoutMs := jsOrDefault t 30000

/-- The `MigrationEngine`'s state: the operations registry and the
configuration. -/
structure MigrationEngineState where
  operations : List MigrationOperation
  config : MigrationConfig
  isRunning : Bool
  deriving DecidableEq

/-- The fields of the untyped `migration` argument that
`executeMigration` reads. -/
structure MigrationRequest where
  shardId : String
  sourceNodeId : String
  targetNodeId : String
  estimatedDataSize : Int
  deriving DecidableEq

/-- Source `MigrationEngine.executeMigration`: unconditionally registers a new
operation in status `pending` (with progress 0 and nothing transferred)
and kicks off `performMigration` for it asynchronously. No capacity
check or queueing of any kind is performed, and
`config.maxConcurrentMigrations` is never read. -/
def executeMigration (st : MigrationEngineState) (mig : MigrationRequest)
    (opId : String) (now : Int) : String × MigrationEngineState :=
  let op : MigrationOperation :=
    { id := opId, shardId := mig.shardId, sourceNodeId := mig.sourceNodeId,
      targetNodeId := mig.targetNodeId, status := MigStatus.pending,
      progress := 0, startTime := now, endTime := none,
      dataTransferred := 0, totalDataSize := mig.estimatedDataSize,
      error := none }
  (opId, { st with operations := st.operations ++ [op] })

/-- The non-terminal statuses named by the concurrency-cap claim. -/
def isNonTerminal : MigStatus → Bool
  | MigStatus.pending => true
  | MigStatus.preparing => true
  | MigStatus.transferring => true
  | MigStatus.verifying => true
  | MigStatus.updatingRouting => true
  | MigStatus.cleaningUp => true
  | _ => false

/-- Number of operations currently in a non-terminal state. -/
def countNonTerminal (st : MigrationEngineState) : Nat :=
  (st.operations.filter (fun op => isNonTerminal op.status)).length

/-- First demo migration request. -/
def demoMigA : MigrationRequest :=
  { shardId := "s0", sourceNodeId := "node-1", targetNodeId := "node-2",
    estimatedDataSize := 1048576 }

/-- Second demo migration request. -/
def demoMigB : MigrationRequest :=
  { shardId := "s1", sourceNodeId := "node-1", targetNodeId := "node-3",
    estimatedDataSize := 2048 }

/-- C7: the claim's concurrency cap is not enforced anywhere in the
code — `config.maxConcurrentMigrations` is stored by the constructor
and never consulted, and no queue exists. Evaluating the code at the
failing input: with the cap configured to 1, two consecutive
`executeMigration` calls leave two operations in a non-terminal state,
both started immediately, neither queued. -/
theorem migration_cap_not_enforced :
    (executeMigration
        (executeMigration
          { operations := [],
            config := mkMigrationConfig (some 1) none none none,
            isRunning := true }
          demoMigA "op-1" 0).2
        demoMigB "op-2" 1).2.config.maxConcurrentMigrations = 1
    ∧ countNonTerminal
        (executeMigration
          (executeMigration
            { operations := [],
              config := mkMigrationConfig (some 1) none none none,
              isRunning := true }
            demoMigA "op-1" 0).2
          demoMigB "op-2" 1).2 = 2 := by
  decide

/-! ## Shard manager (`part_009` `ShardManager`) -/

/-- Source `ShardOperation.type`. -/
inductive ShardOpType
  | screate
  | sdelete
  | smove
  | ssplit
  | smerge
  deriving DecidableEq

/-- Source `ShardOperation.status`. -/
inductive ShardOpStatus
  | pending
  | inProgress
  | completed
  | failed
  deriving DecidableEq

/-- Source `ShardOperation` from `part_009`. -/
structure ShardOperation where
  id : String
  optype : ShardOpType
  shardId : String
  sourceNodeId : Option String
  targetNodeId : Option String
  status : ShardOpStatus
  createdAt : Int
  startedAt : Option Int
  completedAt : Option Int
  error : Option String
  deriving DecidableEq

/-- The `ShardManager`'s operation registry (`shardOperations` map). -/
structure ShardManagerState where
  shardOperations : List (String × ShardOperation)
  deriving DecidableEq

/-- Source `shardOperations.get(id)`. -/
def lookupOperation (st : ShardManagerState) (opId : String) :
    Option ShardOperation :=
  (st.shardOperations.find? (fun p => p.1 = opId)).map Prod.snd

/-- In-place mutation of the operation object stored under `opId`. -/
def storeOperation (st : ShardManagerState) (opId : String)
    (op : ShardOperation) : ShardManagerState :=
  { st with
    shardOperations :=
      st.shardOperations.map (fun p => if p.1 = opId then (opId, op) else p) }

/-- Source `ShardManager.executeShardOperation`: returns `false` untouched when
the id is unknown or the operation is not `pending`; otherwise marks it
`in_progress`, dispatches on the type (the simulated move/split/merge
executors all succeed), and lands in `completed`, or in `failed` via the
caught unknown-type error. -/
def executeShardOperation (st : ShardManagerState) (opId : String)
    (now : Int) : Bool × ShardManagerState :=
  match lookupOperation st opId with
  | none => (false, st)
  | some op =>
    if op.status ≠ ShardOpStatus.pending then (false, st)
    else
      let started := { op with status := ShardOpStatus.inProgress,
                               startedAt := some now }
      match started.optype with
      | ShardOpType.smove =>
        (true, storeOperation st opId
          { started with status := ShardOpStatus.completed,
                         completedAt := some now })
      | ShardOpType.ssplit =>
        (true, storeOperation st opId
          { started with status := ShardOpStatus.completed,
                         completedAt := some now })
      | ShardOpType.smerge =>
        (true, storeOperation st opId
          { started with status := ShardOpStatus.completed,
                         completedAt := some now })
      | _ =>
        (false, storeOperation st opId
          { started with status := ShardOpStatus.failed,
                         error := some "Unknown operation type",
                         completedAt := some now })

/-- C8: once an operation is terminal — in particular once it has
reached `completed` — `executeShardOperation` is a pure no-op: any call
returns `false` and leaves the whole registry unchanged (so no data
transfer is dispatched), and a repeated call returns exactly the same
result as the previous one. The hypothesis covers every non-`pending`
status, proving the claim's parenthetical that the function never
transitions an operation that is not `pending`. -/
theorem executeShardOperation_terminal_noop (st : ShardManagerState)
    (opId : String) (nowA nowB : Int) (op : ShardOperation)
    (hfind : lookupOperation st opId = some op)
    (hnp : op.status ≠ ShardOpStatus.pending) :
    executeShardOperation st opId nowA = (false, st)
    ∧ executeShardOperation (executeShardOperation st opId nowA).2 opId nowB
        = executeShardOperation st opId nowA := by
  have hbase : ∀ t : Int, executeShardOperation st opId t = (false, st) := by
    intro t
    unfold executeShardOperation
    rw [hfind]
    simp [hnp]
  refine ⟨hbase nowA, ?_⟩
  rw [hbase nowA]
  exact hbase nowB

/-- A concrete registry holding one completed move operation, used to
witness C8. -/
def demoShardManager : ShardManagerState :=
  { shardOperations :=
      [("m1",
        { id := "m1", optype := ShardOpType.smove, shardId := "s0",
          sourceNodeId := some "node-1", targetNodeId := some "node-2",
          status := ShardOpStatus.completed, createdAt := 0,
          startedAt := some 1, completedAt := some 2, error := none })] }

/-- Witness for C8: on the concrete completed operation, a repeated
`executeShardOperation` returns `false` both times and leaves the
registry unchanged. -/
theorem executeShardOperation_terminal_noop_witness :
    executeShardOperation demoShardManager "m1" 10 = (false, demoShardManager)
    ∧ executeShardOperation
        (executeShardOperation demoShardManager "m1" 10).2 "m1" 20
        = executeShardOperation demoShardManager "m1" 10 :=
  executeShardOperation_terminal_noop demoShardManager "m1" 10 20 _ rfl
    (by decide)

/-! ## Consistent hash ring (`consistent-hash.ts`) -/

/-- A virtual node on the ring: the owning physical node's id and the
32-bit ring position derived from the hash. -/
structure VirtualNode where
  nodeId : String
  position : Nat
  deriving DecidableEq

/-- Source `ConsistentHashRing.getNode`: `null` on an empty ring; otherwise
scan the position-sorted ring for the first virtual node whose position
is at least the key's position, wrapping to `ring[0]` when the scan
finds none. The key's hash position is abstracted as `pos`. -/
def getNode (ring : List VirtualNode) (pos : Nat) : Option String :=
  match ring with
  | [] => none
  | first :: _ =>
    match ring.find? (fun vn => pos ≤ vn.position) with
    | some vn => some vn.nodeId
    | none => some first.nodeId

/-- The `startIndex` scan of `ConsistentHashRing.getReplicaNodes`: the
index of the first virtual node at or after the key's position, or 0. -/
def findStartIndex (ring : List VirtualNode) (pos : Nat) : Nat :=
  match ring.findIdx? (fun vn => pos ≤ vn.position) with
  | some i => i
  | none => 0

/-- Source `ConsistentHashRing.getReplicaNodes`: empty on an empty ring;
otherwise walk the ring from the start index, collecting distinct
physical node ids until `replicaCount` are found or the ring is
exhausted. -/
def getReplicaNodes (ring : List VirtualNode) (pos : Nat)
    (replicaCount : Nat) : List String :=
  match ring with
  | [] => []
  | _ =>
    let start := findStartIndex ring pos
    (List.range ring.length).foldl
      (fun acc i =>
        if acc.length < replicaCount then
          match ring.get? ((start + i) % ring.length) with
          | some vn => if vn.nodeId ∈ acc then acc else acc ++ [vn.nodeId]
          | none => acc
        else acc)
      []

/-- C10: on the empty ring (no node ever added, or all removed),
`getNode` returns `null` and `getReplicaNodes` returns the empty list,
for every key position and replica count; both are pure lookups that
leave the ring unchanged. -/
theorem empty_ring_returns_null (pos replicaCount : Nat) :
    getNode [] pos = none ∧ getReplicaNodes [] pos replicaCount = [] :=
  ⟨rfl, rfl⟩

/-- In a ring sorted by position, the virtual node that a linear scan
finds first among those at or after `pos` has minimal position among all
of them. Shared helper for the successor-lookup claim. -/
theorem find_min_of_sorted (l : List VirtualNode) (pos : Nat)
    (vn : VirtualNode)
    (hs : List.Pairwise (fun a b => a.position ≤ b.position) l)
    (hf : l.find? (fun v => pos ≤ v.position) = some vn) :
    ∀ u ∈ l, pos ≤ u.position → vn.position ≤ u.position := by
  induction l with
  | nil => simp at hf
  | cons hd tl ih =>
    rw [List.pairwise_cons] at hs
    by_cases hh : pos ≤ hd.position
    · rw [List.find?_cons_of_pos _ (by simpa using hh)] at hf
      injection hf with hvn
      subst hvn
      intro u hu hpu
      rcases List.mem_cons.mp hu with hcase | hcase
      · rw [hcase]
      · exact hs.1 u hcase
    · rw [List.find?_cons_of_neg _ (by simpa using hh)] at hf
      intro u hu hpu
      rcases List.mem_cons.mp hu with hcase | hcase
      · rw [hcase] at hpu
        exact absurd hpu hh
      · exact ih hs.2 hf u hcase hpu

/-- C9: on every non-empty ring (sorted by position, as `addNode`
maintains), `getNode` performs the classic successor lookup: it returns
the node id of a virtual node whose position is the first ring position
at or after the key's ring coordinate — i.e. minimal among all positions
`≥ pos` — and when no position is at or after the coordinate it wraps to
the first (lowest-position) virtual node. -/
theorem getNode_successor_lookup (ring : List VirtualNode) (pos : Nat)
    (hne : ring ≠ [])
    (hs : List.Pairwise (fun a b => a.position ≤ b.position) ring) :
    ∃ vn, vn ∈ ring ∧ getNode ring pos = some vn.nodeId
      ∧ ((∃ u ∈ ring, pos ≤ u.position) →
          pos ≤ vn.position
          ∧ ∀ u ∈ ring, pos ≤ u.position → vn.position ≤ u.position)
      ∧ ((∀ u ∈ ring, u.position < pos) →
          ∀ u ∈ ring, vn.position ≤ u.position) := by
  match ring, hne with
  | first :: rest, _ =>
    cases hf : (first :: rest).find? (fun v => pos ≤ v.position) with
    | some vn =>
      have hmem := List.mem_of_find?_eq_some hf
      have hp : pos ≤ vn.position := by simpa using List.find?_some hf
      refine ⟨vn, hmem, ?_, ?_, ?_⟩
      · simp [getNode, hf]
      · intro _
        exact ⟨hp, find_min_of_sorted _ pos vn hs hf⟩
      · intro hall
        have := hall vn hmem
        omega
    | none =>
      have hnone := List.find?_eq_none.mp hf
      refine ⟨first, List.mem_cons_self _ _, ?_, ?_, ?_⟩
      · simp [getNode, hf]
      · rintro ⟨u, hu, hpu⟩
        have := hnone u hu
        simp at this
        omega
      · intro _ u hu
        rcases List.mem_cons.mp hu with hcase | hcase
        · rw [hcase]
        · exact (List.pairwise_cons.mp hs).1 u hcase

/-- A concrete two-node sorted ring for the successor-lookup witness. -/
def demoRing : List VirtualNode :=
  [{ nodeId := "node-1", position := 10 }, { nodeId := "node-2", position := 20 }]

/-- Witness for C9: the successor lookup evaluated on the concrete
sorted two-entry ring at key position 15. -/
theorem getNode_successor_lookup_witness :
    ∃ vn, vn ∈ demoRing ∧ getNode demoRing 15 = some vn.nodeId
      ∧ ((∃ u ∈ demoRing, 15 ≤ u.position) →
          15 ≤ vn.position
          ∧ ∀ u ∈ demoRing, 15 ≤ u.position → vn.position ≤ u.position)
      ∧ ((∀ u ∈ demoRing, u.position < 15) →
          ∀ u ∈ demoRing, vn.position ≤ u.position) :=
  getNode_successor_lookup demoRing 15 (by decide) (by decide)

/-! ## Claim C2: accepted AppendEntries -/

/-- The integer interval `[a, b]` as a list, in increasing order.
Spec-side helper. -/
def intRangeList (a b : Int) : List Int :=
  (List.range (b + 1 - a).toNat).map (fun k : Nat => a + (k : Int))

/-- Modelled from the claim: the log it predicts after an accepted
AppendEntries — the old log truncated after `prevLogIndex` with the
request's entries appended. -/
def specNewLog (st : RaftNode) (req : AppendEntriesRequest) : List LogEntry :=
  jsSlice st.log (req.prevLogIndex + 1) ++ req.entries

/-- Modelled from the claim: the commit index it predicts —
`min(leaderCommit, index of the last new entry)` when `leaderCommit`
exceeds the old commit index, unchanged otherwise. -/
def specNewCommit (st : RaftNode) (req : AppendEntriesRequest) : Int :=
  if st.commitIndex < req.leaderCommit
  then min req.leaderCommit (((specNewLog st req).length : Int) - 1)
  else st.commitIndex

/-- Modelled from the claim: the newly committed entries — those of the
log at indices `lastApplied + 1 .. commitIndex`, in strictly increasing
index order. -/
def specApplied (log : List LogEntry) (la ci : Int) : List LogEntry :=
  (intRangeList (la + 1) ci).filterMap (jsIndex log)

/-- The apply loop's emissions, unrolled over an explicit range of
indices. Shared helper. -/
theorem applyFuel_eq_range (log : List LogEntry) :
    ∀ (n : Nat) (la : Int),
      applyFuel log n la
        = ((List.range n).map (fun k : Nat => la + 1 + (k : Int))).filterMap
            (jsIndex log) := by
  intro n
  induction n with
  | zero => intro la; rfl
  | succ m ih =>
    intro la
    have hstep : applyFuel log (m + 1) la
        = (match jsIndex log (la + 1) with
           | some e => [e]
           | none => []) ++ applyFuel log m (la + 1) := rfl
    rw [hstep, ih (la + 1), List.range_succ_eq_map]
    simp only [List.map_cons, List.map_map, List.filterMap_cons]
    have hmap : (List.range m).map ((fun k : Nat => la + 1 + (k : Int)) ∘ Nat.succ)
        = (List.range m).map (fun k : Nat => (la + 1) + 1 + (k : Int)) := by
      apply List.map_congr_left
      intro k _
      simp only [Function.comp]
      push_cast
      ring
    rw [hmap]
    cases hj : jsIndex log (la + 1) with
    | none => simp [hj]
    | some e => simp [hj]

/-- The apply loop run with exactly `(ci - la).toNat` fuel emits the
claim's predicted entries at indices `la + 1 .. ci`. Shared helper. -/
theorem applyFuel_toNat (log : List LogEntry) (la ci : Int) :
    applyFuel log ((ci - la).toNat) la = specApplied log la ci := by
  unfold specApplied intRangeList
  rw [applyFuel_eq_range]
  have harg : ci + 1 - (la + 1) = ci - la := by ring
  rw [harg]

/-- C2: every accepted AppendEntries (request term at least the
receiver's and a matching entry at `prevLogIndex`, here with a non-empty
entry list) truncates the log after `prevLogIndex`, appends the
request's entries, sets `commitIndex` to `min(leaderCommit, index of the
last new entry)` exactly when `leaderCommit` exceeds the old commit
index, and in that case applies precisely the entries of the new log at
indices `lastApplied + 1 .. newCommitIndex`, in strictly increasing
index order, advancing `lastApplied` accordingly; the response reports
success and the last index of the new log. -/
theorem handleAppendEntries_accept_spec (st : RaftNode)
    (req : AppendEntriesRequest)
    (hterm : st.currentTerm ≤ req.term)
    (hprev : 0 ≤ req.prevLogIndex →
      ∃ prevEntry, jsIndex st.log req.prevLogIndex = some prevEntry
        ∧ prevEntry.term = req.prevLogTerm)
    (hne : req.entries ≠ []) :
    (handleAppendEntries st req).2.1.success = true
    ∧ (handleAppendEntries st req).2.1.lastLogIndex
        = ((specNewLog st req).length : Int) - 1
    ∧ (handleAppendEntries st req).1.log = specNewLog st req
    ∧ (handleAppendEntries st req).1.commitIndex = specNewCommit st req
    ∧ (handleAppendEntries st req).1.lastApplied
        = (if st.commitIndex < req.leaderCommit
           then st.lastApplied + (specNewCommit st req - st.lastApplied).toNat
           else st.lastApplied)
    ∧ (handleAppendEntries st req).2.2
        = (if st.commitIndex < req.leaderCommit
           then specApplied (specNewLog st req) st.lastApplied
                  (specNewCommit st req)
           else []) := by
  have hlen : 0 < req.entries.length := List.length_pos.mpr hne
  by_cases h1 : st.currentTerm < req.term
  · by_cases h3 : 0 ≤ req.prevLogIndex
    · obtain ⟨pe, hpe, hpt⟩ := hprev h3
      by_cases hc : st.commitIndex < req.leaderCommit
      all_goals
        simp [handleAppendEntries, becomeFollower, updateTerm, h1, h3, hpe, hpt,
          hlen, hne, lt_irrefl, hc, applyCommittedEntries, applyFuel_toNat,
          specNewLog, specNewCommit]
    · by_cases hc : st.commitIndex < req.leaderCommit
      all_goals
        simp [handleAppendEntries, becomeFollower, updateTerm, h1, h3,
          hlen, hne, lt_irrefl, hc, applyCommittedEntries, applyFuel_toNat,
          specNewLog, specNewCommit]
  · have h1b : ¬ req.term < st.currentTerm := not_lt.mpr hterm
    by_cases h2 : st.status = NodeStatus.follower
    all_goals by_cases h3 : 0 ≤ req.prevLogIndex
    · obtain ⟨pe, hpe, hpt⟩ := hprev h3
      by_cases hc : st.commitIndex < req.leaderCommit
      all_goals
        simp [handleAppendEntries, becomeFollower, updateTerm, h1, h1b, h2, h3,
          hpe, hpt, hlen, hne, lt_irrefl, hc, applyCommittedEntries,
          applyFuel_toNat, specNewLog, specNewCommit]
    · by_cases hc : st.commitIndex < req.leaderCommit
      all_goals
        simp [handleAppendEntries, becomeFollower, updateTerm, h1, h1b, h2, h3,
          hlen, hne, lt_irrefl, hc, applyCommittedEntries, applyFuel_toNat,
          specNewLog, specNewCommit]
    · obtain ⟨pe, hpe, hpt⟩ := hprev h3
      by_cases hc : st.commitIndex < req.leaderCommit
      all_goals
        simp [handleAppendEntries, becomeFollower, updateTerm, h1, h1b, h2, h3,
          hpe, hpt, hlen, hne, lt_irrefl, hc, applyCommittedEntries,
          applyFuel_toNat, specNewLog, specNewCommit]
    · by_cases hc : st.commitIndex < req.leaderCommit
      all_goals
        simp [handleAppendEntries, becomeFollower, updateTerm, h1, h1b, h2, h3,
          hlen, hne, lt_irrefl, hc, applyCommittedEntries, applyFuel_toNat,
          specNewLog, specNewCommit]

/-- Witness state for C2: a freshly constructed follower. -/
def demoFollower : RaftNode := RaftNode.init "node-2"

/-- A concrete well-formed AppendEntries request carrying two entries
(`prevLogIndex = -1`, so it targets an empty log). -/
def demoAEReq : AppendEntriesRequest :=
  { term := 1, leaderId := "node-1", prevLogIndex := -1, prevLogTerm := 0,
    entries := [demoEntryA, demoEntryB], leaderCommit := 1 }

/-- Witness for C2: the accepted-AppendEntries specification evaluated
on the concrete follower and request. -/
theorem handleAppendEntries_accept_spec_witness :
    (handleAppendEntries demoFollower demoAEReq).2.1.success = true
    ∧ (handleAppendEntries demoFollower demoAEReq).2.1.lastLogIndex
        = ((specNewLog demoFollower demoAEReq).length : Int) - 1
    ∧ (handleAppendEntries demoFollower demoAEReq).1.log
        = specNewLog demoFollower demoAEReq
    ∧ (handleAppendEntries demoFollower demoAEReq).1.commitIndex
        = specNewCommit demoFollower demoAEReq
    ∧ (handleAppendEntries demoFollower demoAEReq).1.lastApplied
        = (if demoFollower.commitIndex < demoAEReq.leaderCommit
           then demoFollower.lastApplied
                + (specNewCommit demoFollower demoAEReq
                    - demoFollower.lastApplied).toNat
           else demoFollower.lastApplied)
    ∧ (handleAppendEntries demoFollower demoAEReq).2.2
        = (if demoFollower.commitIndex < demoAEReq.leaderCommit
           then specApplied (specNewLog demoFollower demoAEReq)
                  demoFollower.lastApplied
                  (specNewCommit demoFollower demoAEReq)
           else []) :=
  handleAppendEntries_accept_spec demoFollower demoAEReq (by decide)
    (fun hcontra => absurd hcontra (by decide)) (by decide)

/-! ## Claim C3: the commit/apply cursor invariant -/

/-- Modelled from the claim: the spec's stated invariant
`lastApplied <= commitIndex <= len(log) - 1`. -/
def claimedInvariant (st : RaftNode) : Prop :=
  st.lastApplied ≤ st.commitIndex
  ∧ st.commitIndex ≤ (st.log.length : Int) - 1

/-- The invariant the code actually maintains under well-formed leader
requests: both cursors are non-negative, ordered, and the commit index
never exceeds `max(len(log) - 1, 0)`. -/
def raftInvariant (st : RaftNode) : Prop :=
  0 ≤ st.lastApplied
  ∧ st.lastApplied ≤ st.commitIndex
  ∧ st.commitIndex ≤ max ((st.log.length : Int) - 1) 0

/-- A well-formed AppendEntries request, as a correct leader would send
to this receiver: `prevLogIndex ≥ -1`, and a `leaderCommit` at least the
receiver's commit index and no greater than the index of the last entry
the request accounts for (`prevLogIndex + |entries|`). -/
def wfRequest (st : RaftNode) (req : AppendEntriesRequest) : Prop :=
  -1 ≤ req.prevLogIndex
  ∧ st.commitIndex ≤ req.leaderCommit
  ∧ req.leaderCommit ≤ req.prevLogIndex + (req.entries.length : Int)

/-- States reachable from the initial state by any sequence of
`appendCommand`, `handleAppendEntries`, and `handleRequestVote`
operations (the claim's reachability relation). -/
inductive RaftReachable : RaftNode → Prop
  | init (id : String) : RaftReachable (RaftNode.init id)
  | append {st : RaftNode} (cmd : Command) (now : Int) :
      RaftReachable st → RaftReachable (appendStep st cmd now)
  | vote {st : RaftNode} (req : VoteRequest) :
      RaftReachable st → RaftReachable (handleRequestVote st req).1
  | appendEntries {st : RaftNode} (req : AppendEntriesRequest) :
      RaftReachable st → RaftReachable (handleAppendEntries st req).1

/-- Reachability when every AppendEntries request is well formed. -/
inductive RaftReachableWF : RaftNode → Prop
  | init (id : String) : RaftReachableWF (RaftNode.init id)
  | append {st : RaftNode} (cmd : Command) (now : Int) :
      RaftReachableWF st → RaftReachableWF (appendStep st cmd now)
  | vote {st : RaftNode} (req : VoteRequest) :
      RaftReachableWF st → RaftReachableWF (handleRequestVote st req).1
  | appendEntries {st : RaftNode} (req : AppendEntriesRequest) :
      RaftReachableWF st → wfRequest st req →
      RaftReachableWF (handleAppendEntries st req).1

/-- C3 counterexample: the initial state itself — reachable by the
empty operation sequence — violates the claimed invariant: its log is
empty, so `len(log) - 1 = -1 < 0 = commitIndex`. -/
theorem raft_invariant_fails_at_init :
    RaftReachable (RaftNode.init "node-1")
    ∧ ¬ claimedInvariant (RaftNode.init "node-1") := by
  refine ⟨RaftReachable.init "node-1", ?_⟩
  intro hcl
  unfold claimedInvariant at hcl
  obtain ⟨hcl1, hcl2⟩ := hcl
  simp [RaftNode.init] at hcl2

/-- Source `jsIndex` succeeding pins the index inside the list. Shared
helper. -/
theorem jsIndex_some_bound (l : List LogEntry) (i : Int) (e : LogEntry)
    (h : jsIndex l i = some e) : 0 ≤ i ∧ i.toNat < l.length := by
  unfold jsIndex at h
  by_cases h0 : 0 ≤ i
  · rw [if_pos h0] at h
    exact ⟨h0, (List.get?_eq_some.mp h).1⟩
  · rw [if_neg h0] at h
    exact absurd h (by simp)

/-- Length of the JavaScript prefix slice when the cut point is inside
the list. Shared helper. -/
theorem jsSlice_length_of_lt (l : List LogEntry) (i : Int) (h0 : 0 ≤ i)
    (hlt : i.toNat < l.length) :
    ((jsSlice l (i + 1)).length : Int) = i + 1 := by
  unfold jsSlice
  rw [if_neg (by omega)]
  rw [List.length_take]
  have harg : (i + 1).toNat = i.toNat + 1 := by omega
  rw [harg]
  push_cast
  omega

/-- The slice at cut point 0 is empty. Shared helper. -/
theorem jsSlice_zero (l : List LogEntry) : jsSlice l 0 = [] := by
  unfold jsSlice
  simp

/-- Source `handleRequestVote` never touches the log or the commit/apply
cursors. Shared helper. -/
theorem handleRequestVote_fields (st : RaftNode) (req : VoteRequest) :
    (handleRequestVote st req).1.log = st.log
    ∧ (handleRequestVote st req).1.commitIndex = st.commitIndex
    ∧ (handleRequestVote st req).1.lastApplied = st.lastApplied := by
  simp only [handleRequestVote]
  split_ifs <;> simp [becomeFollower, updateTerm]

/-- Source `appendStep` preserves the invariant: a leader appends one entry
(growing the log), a non-leader leaves the state unchanged. Shared
helper. -/
theorem raftInvariant_append (st : RaftNode) (cmd : Command) (now : Int)
    (ih : raftInvariant st) : raftInvariant (appendStep st cmd now) := by
  obtain ⟨i1, i2, i3⟩ := ih
  unfold raftInvariant
  unfold appendStep appendCommand
  by_cases h : st.status = NodeStatus.leader
  · simp [h]
    omega
  · simp [h]
    omega

/-- Source `handleAppendEntries` preserves the invariant for well-formed
requests. Shared helper. -/
theorem raftInvariant_ae (st : RaftNode) (req : AppendEntriesRequest)
    (ih : raftInvariant st) (hwf : wfRequest st req) :
    raftInvariant (handleAppendEntries st req).1 := by
  obtain ⟨i1, i2, i3⟩ := ih
  obtain ⟨w1, w2, w3⟩ := hwf
  unfold raftInvariant
  by_cases h1 : st.currentTerm < req.term
  · by_cases h3 : 0 ≤ req.prevLogIndex
    · cases hj : jsIndex st.log req.prevLogIndex with
      | none =>
        simp [*, handleAppendEntries, becomeFollower, updateTerm,
          applyCommittedEntries, lt_irrefl] <;> omega
      | some pe =>
        have hbound := jsIndex_some_bound st.log req.prevLogIndex pe hj
        have hsl : ((jsSlice st.log (req.prevLogIndex + 1)).length : Int)
            = req.prevLogIndex + 1 :=
          jsSlice_length_of_lt st.log req.prevLogIndex h3 hbound.2
        by_cases hb : pe.term = req.prevLogTerm
        · by_cases h4 : 0 < req.entries.length
          · by_cases hc : st.commitIndex < req.leaderCommit
            all_goals
              simp [*, handleAppendEntries, becomeFollower, updateTerm,
                applyCommittedEntries, lt_irrefl] <;> omega
          · by_cases hc : st.commitIndex < req.leaderCommit
            all_goals
              simp [*, handleAppendEntries, becomeFollower, updateTerm,
                applyCommittedEntries, lt_irrefl] <;> omega
        · simp [*, handleAppendEntries, becomeFollower, updateTerm,
            applyCommittedEntries, lt_irrefl] <;> omega
    · have hP : req.prevLogIndex = -1 := by omega
      by_cases h4 : 0 < req.entries.length
      · by_cases hc : st.commitIndex < req.leaderCommit
        all_goals
          simp [*, handleAppendEntries, becomeFollower, updateTerm,
            applyCommittedEntries, jsSlice_zero, lt_irrefl] <;> omega
      · by_cases hc : st.commitIndex < req.leaderCommit
        all_goals
          simp [*, handleAppendEntries, becomeFollower, updateTerm,
            applyCommittedEntries, jsSlice_zero, lt_irrefl] <;> omega
  · by_cases h5 : req.term < st.currentTerm
    · simp [*, handleAppendEntries, becomeFollower, updateTerm] <;> omega
    · by_cases h2 : st.status = NodeStatus.follower
      · by_cases h3 : 0 ≤ req.prevLogIndex
        · cases hj : jsIndex st.log req.prevLogIndex with
          | none =>
            simp [*, handleAppendEntries, becomeFollower, updateTerm,
              applyCommittedEntries, lt_irrefl] <;> omega
          | some pe =>
            have hbound := jsIndex_some_bound st.log req.prevLogIndex pe hj
            have hsl : ((jsSlice st.log (req.prevLogIndex + 1)).length : Int)
                = req.prevLogIndex + 1 :=
              jsSlice_length_of_lt st.log req.prevLogIndex h3 hbound.2
            by_cases hb : pe.term = req.prevLogTerm
            · by_cases h4 : 0 < req.entries.length
              · by_cases hc : st.commitIndex < req.leaderCommit
                all_goals
                  simp [*, handleAppendEntries, becomeFollower, updateTerm,
                    applyCommittedEntries, lt_irrefl] <;> omega
              · by_cases hc : st.commitIndex < req.leaderCommit
                all_goals
                  simp [*, handleAppendEntries, becomeFollower, updateTerm,
                    applyCommittedEntries, lt_irrefl] <;> omega
            · simp [*, handleAppendEntries, becomeFollower, updateTerm,
                applyCommittedEntries, lt_irrefl] <;> omega
        · have hP : req.prevLogIndex = -1 := by omega
          by_cases h4 : 0 < req.entries.length
          · by_cases hc : st.commitIndex < req.leaderCommit
            all_goals
              simp [*, handleAppendEntries, becomeFollower, updateTerm,
                applyCommittedEntries, jsSlice_zero, lt_irrefl] <;> omega
          · by_cases hc : st.commitIndex < req.leaderCommit
            all_goals
              simp [*, handleAppendEntries, becomeFollower, updateTerm,
                applyCommittedEntries, jsSlice_zero, lt_irrefl] <;> omega
      · by_cases h3 : 0 ≤ req.prevLogIndex
        · cases hj : jsIndex st.log req.prevLogIndex with
          | none =>
            simp [*, handleAppendEntries, becomeFollower, updateTerm,
              applyCommittedEntries, lt_irrefl] <;> omega
          | some pe =>
            have hbound := jsIndex_some_bound st.log req.prevLogIndex pe hj
            have hsl : ((jsSlice st.log (req.prevLogIndex + 1)).length : Int)
                = req.prevLogIndex + 1 :=
              jsSlice_length_of_lt st.log req.prevLogIndex h3 hbound.2
            by_cases hb : pe.term = req.prevLogTerm
            · by_cases h4 : 0 < req.entries.length
              · by_cases hc : st.commitIndex < req.leaderCommit
                all_goals
                  simp [*, handleAppendEntries, becomeFollower, updateTerm,
                    applyCommittedEntries, lt_irrefl] <;> omega
              · by_cases hc : st.commitIndex < req.leaderCommit
                all_goals
                  simp [*, handleAppendEntries, becomeFollower, updateTerm,
                    applyCommittedEntries, lt_irrefl] <;> omega
            · simp [*, handleAppendEntries, becomeFollower, updateTerm,
                applyCommittedEntries, lt_irrefl] <;> omega
        · have hP : req.prevLogIndex = -1 := by omega
          by_cases h4 : 0 < req.entries.length
          · by_cases hc : st.commitIndex < req.leaderCommit
            all_goals
              simp [*, handleAppendEntries, becomeFollower, updateTerm,
                applyCommittedEntries, jsSlice_zero, lt_irrefl] <;> omega
          · by_cases hc : st.commitIndex < req.leaderCommit
            all_goals
              simp [*, handleAppendEntries, becomeFollower, updateTerm,
                applyCommittedEntries, jsSlice_zero, lt_irrefl] <;> omega

/-- C3 amended: the claimed invariant fails on the code as stated
(already in the initial state, whose empty log gives
`len(log) - 1 = -1 < commitIndex = 0`); what holds in every state
reachable by `appendCommand`, `handleRequestVote`, and
`handleAppendEntries` restricted to well-formed leader requests
(`prevLogIndex ≥ -1` and
`receiver.commitIndex ≤ leaderCommit ≤ prevLogIndex + |entries|`) is
`0 ≤ lastApplied ≤ commitIndex ≤ max(len(log) - 1, 0)`. -/
theorem raft_invariant_wf_reachable (st : RaftNode)
    (h : RaftReachableWF st) : raftInvariant st := by
  induction h with
  | init id =>
    unfold raftInvariant
    simp [RaftNode.init]
  | append cmd now _ ih => exact raftInvariant_append _ cmd now ih
  | vote req _ ih =>
    obtain ⟨hl, hcommit, happly⟩ := handleRequestVote_fields _ req
    unfold raftInvariant at ih ⊢
    rw [hl, hcommit, happly]
    exact ih
  | appendEntries req _ hwf ih => exact raftInvariant_ae _ req ih hwf

/-- Witness for C3 amended: the invariant evaluated on the concrete
state reached by one well-formed accepted AppendEntries from the
initial state. -/
theorem raft_invariant_wf_reachable_witness :
    raftInvariant (handleAppendEntries (RaftNode.init "node-3") demoAEReq).1 :=
  raft_invariant_wf_reachable _
    (RaftReachableWF.appendEntries demoAEReq (RaftReachableWF.init "node-3")
      ⟨by decide, by decide, by decide⟩)
